import Mathlib

/-!
Verification of the restaurant-hours service: a shallow embedding of the
parsing core (`parsers.py`), the data models (`models.py`) and the service
layer (`services.py`), together with theorems checking the specification's
claims against the embedded code.

Strings are processed as `List Char` (one entry per code point, matching
Python `str` indexing); Python's `ValueError`/`RuntimeError` become the two
constructors of `PyErr`; fallible functions return `Except PyErr`.
-/

/-- Decidable equality for `Except`, needed to evaluate parser results. -/
instance {e a : Type} [DecidableEq e] [DecidableEq a] : DecidableEq (Except e a) := fun x y =>
  match x, y with
  | .ok v, .ok w =>
    if h : v = w then isTrue (by rw [h]) else isFalse (fun he => h (Except.ok.inj he))
  | .error v, .error w =>
    if h : v = w then isTrue (by rw [h]) else isFalse (fun he => h (Except.error.inj he))
  | .ok _, .error _ => isFalse (fun he => Except.noConfusion he)
  | .error _, .ok _ => isFalse (fun he => Except.noConfusion he)

/-- Python exception values carried by the embedded code: `ValueError`,
`RuntimeError` and the `csv` module's `csv.Error`, each with its message. -/
inductive PyErr where
  | valueError (msg : String)
  | runtimeError (msg : String)
  | csvError (msg : String)
deriving DecidableEq

/-- The whitespace class of Python's `str.strip` and of `\s` in its `re`
patterns (space, tab, newline, carriage return, vertical tab, form feed). -/
def isSpaceChar (c : Char) : Bool :=
  c = ' ' || c = '\t' || c = '\n' || c = '\r' || c = '\u000B' || c = '\u000C'

/-- Python `str.strip()`: drop leading and trailing whitespace. -/
def trimList (cs : List Char) : List Char :=
  ((cs.dropWhile isSpaceChar).reverse.dropWhile isSpaceChar).reverse

/-- Python `str.lower()` (ASCII letters, which is all the sources use). -/
def toLowerList (cs : List Char) : List Char := cs.map Char.toLower

/-- Python `str.split(sep)` for a one-character separator: `"".split(sep)`
is `[""]`, and consecutive separators yield empty pieces. -/
def splitOnChar (sep : Char) : List Char → List (List Char)
  | [] => [[]]
  | c :: cs =>
    let r := splitOnChar sep cs
    if c = sep then [] :: r
    else
      match r with
      | [] => [[c]]
      | h :: t => (c :: h) :: t

/-- Python `str.split(sep, 1)` restricted to the case used by the sources:
`none` when the separator does not occur (Python's `sep in s` test is false),
otherwise the pieces before and after its first occurrence. -/
def splitFirst (sep : Char) : List Char → Option (List Char × List Char)
  | [] => none
  | c :: cs =>
    if c = sep then some ([], cs)
    else (splitFirst sep cs).map (fun p => (c :: p.1, p.2))

/-- `sep.join(parts)` for a one-character separator. -/
def joinWithChar (sep : Char) : List (List Char) → List Char
  | [] => []
  | [p] => p
  | p :: ps => p ++ sep :: joinWithChar sep ps

/-- Python `s.rsplit(' ', 3)`: split at the (up to) three rightmost spaces. -/
def rsplit3 (cs : List Char) : List (List Char) :=
  let parts := splitOnChar ' ' cs
  if parts.length ≤ 4 then parts
  else joinWithChar ' ' (parts.take (parts.length - 3)) :: parts.drop (parts.length - 3)

/-- Python `range(a, b + 1)` as a list (empty when `b + 1 ≤ a`). -/
def rangeIncl (a b : Nat) : List Nat := (List.range (b + 1 - a)).map (a + ·)

/-- A wall-clock time of day, embedding Python's `datetime.time` as used by
the sources: an hour (0-23) and a minute (0-59), validated at construction. -/
structure Time where
  hour : Nat
  minute : Nat
deriving DecidableEq

/-- The boolean comparison Python performs on `datetime.time` values:
lexicographic on (hour, minute). -/
def Time.leb (a b : Time) : Bool :=
  decide (a.hour < b.hour) || (decide (a.hour = b.hour) && decide (a.minute ≤ b.minute))

/-- The specification-level order on times of day: lexicographic `≤`. -/
def Time.le (a b : Time) : Prop :=
  a.hour < b.hour ∨ (a.hour = b.hour ∧ a.minute ≤ b.minute)

/-- The specification-level strict order on times of day. -/
def Time.lt (a b : Time) : Prop :=
  a.hour < b.hour ∨ (a.hour = b.hour ∧ a.minute < b.minute)

instance (a b : Time) : Decidable (Time.le a b) := by unfold Time.le; exact inferInstance

instance (a b : Time) : Decidable (Time.lt a b) := by unfold Time.lt; exact inferInstance

/-- `models.TimeRange`: one open interval, possibly crossing midnight. -/
structure TimeRange where
  start : Time
  «end» : Time
deriving DecidableEq

/-- `TimeRange.contains_time`: membership of an instant in the range,
closed at both ends, wrapping past midnight when `start > end`. -/
def TimeRange.contains_time (tr : TimeRange) (t : Time) : Bool :=
  if Time.leb tr.start tr.end then Time.leb tr.start t && Time.leb t tr.end
  else Time.leb tr.start t || Time.leb t tr.end

/-- `models.DaySchedule`: the open intervals of one weekday. -/
structure DaySchedule where
  time_ranges : List TimeRange
deriving DecidableEq

/-- `DaySchedule.is_open_at_time`: open iff any range contains the time. -/
def DaySchedule.is_open_at_time (ds : DaySchedule) (t : Time) : Bool :=
  ds.time_ranges.any (fun tr => tr.contains_time t)

/-- The `schedule` dictionary mapping weekday indices to day schedules,
embedded as an insertion-ordered association list (Python `dict`). -/
abbrev Sched := List (Nat × DaySchedule)

/-- Dictionary lookup `schedule[day]` / membership `day in schedule`. -/
def schedLookup : Sched → Nat → Option DaySchedule
  | [], _ => none
  | (k, ds) :: rest, d => if k = d then some ds else schedLookup rest d

/-- The parser's per-day update: create the `DaySchedule` on first use and
append the time range to it (`schedule[day].time_ranges.append(...)`). -/
def schedAppend : Sched → Nat → TimeRange → Sched
  | [], d, tr => [(d, ⟨[tr]⟩)]
  | (k, ds) :: rest, d, tr =>
    if k = d then (k, ⟨ds.time_ranges ++ [tr]⟩) :: rest
    else (k, ds) :: schedAppend rest d tr

/-- The keys of a schedule dictionary, in insertion order. -/
def schedKeys (s : Sched) : List Nat := s.map (fun p => p.1)

/-- `models.Restaurant`: a name and a weekly schedule. -/
structure Restaurant where
  name : String
  schedule : Sched
deriving DecidableEq

/-- `Restaurant.is_open_at_datetime`, with the query instant already
decomposed into `(weekday, time-of-day)` as the specification's interface
demands: closed when the weekday is absent from the schedule. -/
def Restaurant.is_open_at (r : Restaurant) (weekday : Nat) (t : Time) : Bool :=
  match schedLookup r.schedule weekday with
  | none => false
  | some ds => ds.is_open_at_time t

/-- Numeric value of a digit character (`int` on a digit group). -/
def digitVal (c : Char) : Nat := c.toNat - 48

/-- The `(am|pm)` tail of the time regex on already-lowercased text:
`some false` for `am`, `some true` for `pm`, matching a prefix. -/
def matchAmPmLower (cs : List Char) : Option Bool :=
  match cs with
  | c1 :: c2 :: _ =>
    if c1 = 'a' && c2 = 'm' then some false
    else if c1 = 'p' && c2 = 'm' then some true
    else none
  | _ => none

/-- The `\s*(am|pm)` tail of the time regex, carrying the hour and minute
already read. -/
def afterMinute (h m : Nat) (cs : List Char) : Option (Nat × Nat × Bool) :=
  (matchAmPmLower (cs.dropWhile isSpaceChar)).map (fun pm => (h, m, pm))

/-- The `(?::(\d{2}))?\s*(am|pm)` tail of the time regex.  When the text
continues with `:` the optional minute group must consume two digits (a
failed optional group leaves `(am|pm)` facing the `:`, which cannot match,
so the regex engine's backtracking can never rescue that case). -/
def afterHour (h : Nat) (cs : List Char) : Option (Nat × Nat × Bool) :=
  match cs with
  | c :: rest =>
    if c = ':' then
      match rest with
      | c1 :: c2 :: rest2 =>
        if c1.isDigit && c2.isDigit then
          afterMinute h (10 * digitVal c1 + digitVal c2) rest2
        else none
      | _ => none
    else afterMinute h 0 (c :: rest)
  | [] => afterMinute h 0 []

/-- `re.match(r'(\d{1,2})(?::(\d{2}))?\s*(am|pm)', s)` on lowercased text:
anchored at the start, trailing text permitted.  The hour group is greedy;
when it takes two digits no backtracking to one digit can succeed, because
the second digit cannot start the rest of the pattern, so the greedy read
is the only possible one. -/
def matchTimeStart (cs : List Char) : Option (Nat × Nat × Bool) :=
  match cs with
  | c1 :: rest =>
    if c1.isDigit then
      match rest with
      | c2 :: rest2 =>
        if c2.isDigit then afterHour (10 * digitVal c1 + digitVal c2) rest2
        else afterHour (digitVal c1) rest
      | [] => afterHour (digitVal c1) []
    else none
  | [] => none

/-- The 24-hour conversion of `parse_time_string`: `pm` adds 12 except for
12 pm, and 12 am becomes 0. -/
def convHour (h : Nat) (pm : Bool) : Nat :=
  if pm then (if h = 12 then h else h + 12) else (if h = 12 then 0 else h)

/-- `parsers.parse_time_string` on a character list: trim and lowercase,
special-case the midnight/noon literals, then match the time regex and
validate the converted hour and minute ranges (`datetime.time` raises
`ValueError` outside 0-23 / 0-59). -/
def parseTimeChars (cs : List Char) : Except PyErr Time :=
  let t := toLowerList (trimList cs)
  if t = "12 am".data || t = "12:00 am".data then .ok ⟨0, 0⟩
  else if t = "12 pm".data || t = "12:00 pm".data then .ok ⟨12, 0⟩
  else
    match matchTimeStart t with
    | none => .error (.valueError ("Cannot parse time string: " ++ String.mk t))
    | some (hour, minute, pm) =>
      if convHour hour pm ≤ 23 && minute ≤ 59 then .ok ⟨convHour hour pm, minute⟩
      else .error (.valueError ("Invalid time: " ++ String.mk t))

/-- `parsers.parse_time_string` on a Python string. -/
def parse_time_string (time_str : String) : Except PyErr Time :=
  parseTimeChars time_str.data

/-- The fixed day-name table of `parse_day_range`. -/
def day_mapping (cs : List Char) : Option Nat :=
  if cs = "mon".data then some 0
  else if cs = "tue".data then some 1
  else if cs = "tues".data then some 1
  else if cs = "wed".data then some 2
  else if cs = "thu".data then some 3
  else if cs = "thurs".data then some 3
  else if cs = "fri".data then some 4
  else if cs = "sat".data then some 5
  else if cs = "sun".data then some 6
  else none

/-- One comma-separated segment of a day list: either a `start-end` range
(with week wraparound when the start index exceeds the end index) or a
single day name, both resolved through `day_mapping`. -/
def parseSegment (part0 : List Char) : Except PyErr (List Nat) :=
  let part := trimList part0
  match splitFirst '-' part with
  | some (sd, ed) =>
    match day_mapping (trimList sd), day_mapping (trimList ed) with
    | some si, some ei =>
      .ok (if si ≤ ei then rangeIncl si ei else rangeIncl si 6 ++ rangeIncl 0 ei)
    | _, _ => .error (.valueError ("Unknown day in range: " ++ String.mk part))
  | none =>
    match day_mapping part with
    | some i => .ok [i]
    | none => .error (.valueError ("Unknown day: " ++ String.mk part))

/-- `parsers.parse_day_range`: lowercase and trim, resolve every
comma-separated segment, and return `sorted(set(days))`. -/
def parse_day_range (day_str : List Char) : Except PyErr (List Nat) := do
  let ds := toLowerList (trimList day_str)
  let parts := splitOnChar ',' ds
  let days ← parts.foldlM (fun acc part => (parseSegment part).map (acc ++ ·)) ([] : List Nat)
  pure (List.insertionSort (· ≤ ·) days.dedup)

/-- `parsers.parse_time_range`: split at the first `-` (error when there is
none) and parse each side as a time of day. -/
def parse_time_range (time_range_str : List Char) : Except PyErr TimeRange :=
  match splitFirst '-' time_range_str with
  | none => .error (.valueError ("No time range separator found: " ++ String.mk time_range_str))
  | some (s, e) => do
    let st ← parseTimeChars (trimList s)
    let en ← parseTimeChars (trimList e)
    pure ⟨st, en⟩

/-- The `(am|pm)` tail of the fallback search regex, case-insensitive. -/
def matchAmPmCI (cs : List Char) : Bool :=
  match cs with
  | c1 :: c2 :: _ => (c1.toLower = 'a' || c1.toLower = 'p') && c2.toLower = 'm'
  | _ => false

/-- The `(?::\d{2})?\s*(?:am|pm)` tail of the fallback search regex. -/
def afterHourCI (cs : List Char) : Bool :=
  match cs with
  | c :: rest =>
    if c = ':' then
      match rest with
      | c1 :: c2 :: rest2 =>
        if c1.isDigit && c2.isDigit then matchAmPmCI (rest2.dropWhile isSpaceChar)
        else false
      | _ => false
    else matchAmPmCI ((c :: rest).dropWhile isSpaceChar)
  | [] => false

/-- Whether `re.search`'s pattern `\d{1,2}(?::\d{2})?\s*(?:am|pm)` (with
`re.IGNORECASE`) matches starting exactly at the head of the text. -/
def matchesTimeTokenAt (cs : List Char) : Bool :=
  match cs with
  | c1 :: rest =>
    if c1.isDigit then
      match rest with
      | c2 :: rest2 => if c2.isDigit then afterHourCI rest2 else afterHourCI rest
      | [] => false
    else false
  | [] => false

/-- `re.search(...).start()`: the index of the leftmost position at which
the time-token pattern matches, if any. -/
def searchTimeToken : List Char → Option Nat
  | [] => none
  | c :: cs =>
    if matchesTimeTokenAt (c :: cs) then some 0
    else (searchTimeToken cs).map (· + 1)

/-- The primary right-anchored attempt of `parse_restaurant_hours`: the
last three space-delimited tokens are the time-range candidate and the
remainder is the day-list candidate. -/
def primary_parse (p0 p1 p2 p3 : List Char) : Except PyErr (List Nat × TimeRange) := do
  let days ← parse_day_range p0
  let tr ← parse_time_range (p1 ++ (' ' :: p2) ++ (' ' :: p3))
  pure (days, tr)

/-- The fallback attempt of `parse_restaurant_hours`: locate the first
time-token match in the period, split the period there, and parse the two
sides; on success append the range to every resolved day. -/
def fallback_parse (schedule : Sched) (period : List Char) : Except PyErr Sched :=
  match searchTimeToken period with
  | none => .error (.valueError ("Cannot find time in period: " ++ String.mk period))
  | some pos => do
    let days ← parse_day_range (trimList (List.take pos period))
    let tr ← parse_time_range (trimList (List.drop pos period))
    pure (days.foldl (fun s d => schedAppend s d tr) schedule)

/-- One loop iteration of `parse_restaurant_hours` over a period: skip an
empty period; raise the cannot-parse error when `rsplit(' ', 3)` yields
fewer than four parts (this check sits outside the `try`, so the fallback
is not attempted for it); otherwise try the primary split and fall back to
the regex search only when the primary day/time parsing raises. -/
def process_period (schedule : Sched) (period0 : List Char) : Except PyErr Sched :=
  let period := trimList period0
  if period = [] then .ok schedule
  else
    match rsplit3 period with
    | [p0, p1, p2, p3] =>
      match primary_parse p0 p1 p2 p3 with
      | .ok (days, tr) => .ok (days.foldl (fun s d => schedAppend s d tr) schedule)
      | .error _ => fallback_parse schedule period
    | _ => .error (.valueError ("Cannot parse time period: " ++ String.mk period))

/-- `parsers.parse_restaurant_hours`: split the hours string on `/` and
process each period in order against an initially empty schedule. -/
def parse_restaurant_hours (hours_str : String) : Except PyErr Sched :=
  let periods := (splitOnChar '/' hours_str.data).map trimList
  periods.foldlM process_period []

/-- The parser state of Python's `_csv` reader: outside quotes
(`START_RECORD`/`START_FIELD`/`IN_FIELD`, distinguished here by the
anything-consumed-on-this-line flag and the accumulated field/record),
inside a quoted field, or `EAT_CRNL` — the state entered after a carriage
return in an unquoted field, in which only further `\r`s, the line's end
or the end of the data are legal. -/
inductive CsvMode where
  | normal
  | quoted
  | eatCRNL
deriving DecidableEq

/-- `parse_add_char` of `_csv.c`: append one character to the current
field, failing with `csv.Error` once the field has reached the module's
field-size limit (default 128 KiB). -/
def csvAddChar (field : List Char) (c : Char) : Except PyErr (List Char) :=
  if field.length = 131072 then
    .error (.csvError "field larger than field limit (131072)")
  else .ok (field ++ [c])

/-- The message `_csv.c` raises from `EAT_CRNL` on a character other than a
newline — the error a bare `\r` inside an unquoted field provokes, since
`StringIO` hands the reader chunks split only at `\n`. -/
def csvNewlineErrMsg : String :=
  "new-line character seen in unquoted field - do you need to open the file in universal-newline mode?"

/-- The record reader of Python's `csv` module (default dialect) as used on
`StringIO(csv_content)`: comma-delimited fields, `"`-quoted fields with
doubled quotes as escapes (quotes elsewhere kept literally), `\n` or `\r\n`
record terminators, a blank line giving an empty record, and a final record
without terminator still emitted.  A `\r` in an unquoted field ends the
record and enters `EAT_CRNL`, where any character other than `\r`/`\n`
raises `csv.Error` (inside quotes `\r` and `\n` are ordinary data);
over-long fields raise the field-size-limit `csv.Error`.  Arguments:
remaining text, mode, anything-consumed-on-this-line flag, current field,
current record (in `EAT_CRNL` mode: the pending finished record), records
so far. -/
def csvAuxE : List Char → CsvMode → Bool → List Char → List String → List (List String) →
    Except PyErr (List (List String))
  | [], .eatCRNL, _, _, row, rows => .ok (rows ++ [row])
  | [], _, started, field, row, rows =>
    if started then .ok (rows ++ [row ++ [String.mk field]]) else .ok rows
  | c :: rest, .eatCRNL, _, _, row, rows =>
    if c = '\r' then csvAuxE rest .eatCRNL false [] row rows
    else if c = '\n' then csvAuxE rest .normal false [] [] (rows ++ [row])
    else .error (.csvError csvNewlineErrMsg)
  | '"' :: '"' :: rest, .quoted, _, field, row, rows =>
    (match csvAddChar field '"' with
     | .error e => .error e
     | .ok f2 => csvAuxE rest .quoted true f2 row rows)
  | '"' :: rest, .quoted, _, field, row, rows =>
    csvAuxE rest .normal true field row rows
  | c :: rest, .quoted, _, field, row, rows =>
    (match csvAddChar field c with
     | .error e => .error e
     | .ok f2 => csvAuxE rest .quoted true f2 row rows)
  | c :: rest, .normal, started, field, row, rows =>
    if c = ',' then csvAuxE rest .normal true [] (row ++ [String.mk field]) rows
    else if c = '\n' then
      (if started then csvAuxE rest .normal false [] [] (rows ++ [row ++ [String.mk field]])
       else csvAuxE rest .normal false [] [] (rows ++ [[]]))
    else if c = '\r' then
      (if started then csvAuxE rest .eatCRNL false [] (row ++ [String.mk field]) rows
       else csvAuxE rest .eatCRNL false [] [] rows)
    else if c = '"' then
      (if field = [] then csvAuxE rest .quoted true field row rows
       else match csvAddChar field c with
         | .error e => .error e
         | .ok f2 => csvAuxE rest .normal true f2 row rows)
    else match csvAddChar field c with
      | .error e => .error e
      | .ok f2 => csvAuxE rest .normal true f2 row rows

/-- `csv.reader` over the full content: the list of records, or the
`csv.Error` the reader raises while being consumed. -/
def csvParseE (cs : List Char) : Except PyErr (List (List String)) :=
  csvAuxE cs .normal false [] [] []

/-- `parsers.parse_restaurants_from_csv`: skip the header record (an empty
file yields an empty result), drop every record whose field count is not
exactly two, parse each remaining record's hours and keep the successes in
input order, skipping rows whose hours fail to parse.  A `csv.Error` from
the reader is not caught (the code catches only `StopIteration` on the
header and `ValueError` around the hours parse), so it aborts the call;
the reader is consumed lazily in Python, but since every record is
consumed and an exception discards the local result list, parsing the
whole input first is observationally identical. -/
def parse_restaurants_from_csvE (csv_content : String) : Except PyErr (List Restaurant) :=
  match csvParseE csv_content.data with
  | .error e => .error e
  | .ok [] => .ok []
  | .ok (_ :: rows) =>
    .ok (rows.foldl (fun acc row =>
      match row with
      | [name, hours] =>
        match parse_restaurant_hours hours with
        | .ok schedule => acc ++ [Restaurant.mk name schedule]
        | .error _ => acc
      | _ => acc) [])

/-- Total projection of the loader, used by the service-state embedding:
on inputs where the reader raises, the Python method raises and installs
nothing, and the service-level facts proved below (load idempotence and
wholesale replacement, which need only that the load is a deterministic
pure function of the text) hold for any total completion; wherever the
loader succeeds this equals its result. -/
def parse_restaurants_from_csv (csv_content : String) : List Restaurant :=
  match parse_restaurants_from_csvE csv_content with
  | .ok rs => rs
  | .error _ => []

/-- `services.RestaurantService`: the loaded collection and the loaded flag. -/
structure RestaurantService where
  restaurants : List Restaurant
  loaded : Bool
deriving DecidableEq

/-- `RestaurantService.__init__`: no data, not loaded. -/
def RestaurantService.init : RestaurantService := ⟨[], false⟩

/-- `RestaurantService.load_restaurants_from_content`: parse the CSV text
and install the result, replacing any previous collection. -/
def load_restaurants_from_content (_s : RestaurantService) (csv_content : String) : RestaurantService :=
  ⟨parse_restaurants_from_csv csv_content, true⟩

/-- `RestaurantService.get_restaurant_count`. -/
def get_restaurant_count (s : RestaurantService) : Nat := s.restaurants.length

/-- `RestaurantService.find_open_restaurants`, with the query instant
already decomposed into `(weekday, time-of-day)` (the datetime-string
parsing belongs to the excluded host boundary): raise the not-loaded
`RuntimeError` first, then collect the names of the open restaurants and
return them sorted. -/
def find_open_restaurants (s : RestaurantService) (weekday : Nat) (t : Time) : Except PyErr (List String) :=
  if s.loaded = false then
    .error (.runtimeError "Restaurant data not loaded. Call load_restaurants_from_csv first.")
  else
    .ok (List.insertionSort (· ≤ ·)
      (s.restaurants.foldl (fun acc r => if r.is_open_at weekday t then acc ++ [r.name] else acc) []))

/-- `RestaurantService.get_restaurants_open_on_day`: validate the weekday
range first (a Python `int` may be negative, hence `Int`), then the loaded
flag, then collect the names of restaurants whose schedule has the weekday
as a key, sorted. -/
def get_restaurants_open_on_day (s : RestaurantService) (weekday : Int) : Except PyErr (List String) :=
  if ¬ (0 ≤ weekday ∧ weekday ≤ 6) then
    .error (.valueError "Weekday must be between 0 (Monday) and 6 (Sunday)")
  else if s.loaded = false then
    .error (.runtimeError "Restaurant data not loaded. Call load_restaurants_from_csv first.")
  else
    .ok (List.insertionSort (· ≤ ·)
      (s.restaurants.foldl (fun acc r => if (schedLookup r.schedule weekday.toNat).isSome then acc ++ [r.name] else acc) []))

lemma Time.leb_iff (a b : Time) : Time.leb a b = true ↔ Time.le a b := by
  simp [Time.leb, Time.le]

lemma Time.leb_false_iff (a b : Time) : Time.leb a b = false ↔ Time.lt b a := by
  simp [Time.leb, Time.lt]
  omega

/-- C3: membership in a `TimeRange` is the closed interval `start ≤ t ≤ end`
when `start ≤ end`, and wraps past midnight (`t ≥ start` or `t ≤ end`, both
boundaries included) when `start > end`; in particular the overnight range
23:00-02:00 contains 23:00, 00:00, 01:00 and 02:00 and excludes 22:00 and
03:00. -/
theorem C3_contains_time : ∀ (tr : TimeRange) (t : Time),
    (Time.lt tr.end tr.start →
      (tr.contains_time t = true ↔ (Time.le tr.start t ∨ Time.le t tr.end)))
    ∧ (Time.le tr.start tr.end →
      (tr.contains_time t = true ↔ (Time.le tr.start t ∧ Time.le t tr.end)))
    ∧ (TimeRange.mk ⟨23, 0⟩ ⟨2, 0⟩).contains_time ⟨23, 0⟩ = true
    ∧ (TimeRange.mk ⟨23, 0⟩ ⟨2, 0⟩).contains_time ⟨0, 0⟩ = true
    ∧ (TimeRange.mk ⟨23, 0⟩ ⟨2, 0⟩).contains_time ⟨1, 0⟩ = true
    ∧ (TimeRange.mk ⟨23, 0⟩ ⟨2, 0⟩).contains_time ⟨2, 0⟩ = true
    ∧ (TimeRange.mk ⟨23, 0⟩ ⟨2, 0⟩).contains_time ⟨22, 0⟩ = false
    ∧ (TimeRange.mk ⟨23, 0⟩ ⟨2, 0⟩).contains_time ⟨3, 0⟩ = false := by
  intro tr t
  refine ⟨?_, ?_, by decide, by decide, by decide, by decide, by decide, by decide⟩
  · intro hlt
    have hfalse : Time.leb tr.start tr.end = false := (Time.leb_false_iff _ _).mpr hlt
    simp [TimeRange.contains_time, hfalse, Time.leb_iff]
  · intro hle
    have htrue : Time.leb tr.start tr.end = true := (Time.leb_iff _ _).mpr hle
    simp [TimeRange.contains_time, htrue, Time.leb_iff]

/-- Witness for C3 at the overnight range 23:00-02:00 and t = 00:00. -/
theorem C3_witness :
    (TimeRange.mk ⟨23, 0⟩ ⟨2, 0⟩).contains_time ⟨0, 0⟩ = true ↔
      (Time.le ⟨23, 0⟩ ⟨0, 0⟩ ∨ Time.le ⟨0, 0⟩ ⟨2, 0⟩) :=
  (C3_contains_time (TimeRange.mk ⟨23, 0⟩ ⟨2, 0⟩) ⟨0, 0⟩).1 (by decide)

/-- C8: loading the same CSV text twice leaves the service in the very state
a single load produces — the installed collection depends only on the text
(wholesale replacement), so the count and every subsequent query agree. -/
theorem C8_load_idempotent : ∀ (s : RestaurantService) (c : String),
    load_restaurants_from_content (load_restaurants_from_content s c) c
      = load_restaurants_from_content s c
    ∧ (∀ s2, load_restaurants_from_content s c = load_restaurants_from_content s2 c)
    ∧ get_restaurant_count (load_restaurants_from_content (load_restaurants_from_content s c) c)
      = get_restaurant_count (load_restaurants_from_content s c)
    ∧ (∀ w t, find_open_restaurants (load_restaurants_from_content (load_restaurants_from_content s c) c) w t
      = find_open_restaurants (load_restaurants_from_content s c) w t) := by
  intro s c
  exact ⟨rfl, fun _ => rfl, rfl, fun _ _ => rfl⟩

/-- C9: in `get_restaurants_open_on_day` the weekday-range validation comes
before the loaded-state check: any weekday outside 0-6 raises the
`ValueError` even on an unloaded service, and the not-loaded `RuntimeError`
is raised only for in-range weekdays. -/
theorem C9_weekday_check_first : ∀ (s : RestaurantService) (w : Int),
    ((w < 0 ∨ 6 < w) → get_restaurants_open_on_day s w
      = .error (.valueError "Weekday must be between 0 (Monday) and 6 (Sunday)"))
    ∧ (0 ≤ w → w ≤ 6 → s.loaded = false → get_restaurants_open_on_day s w
      = .error (.runtimeError "Restaurant data not loaded. Call load_restaurants_from_csv first.")) := by
  intro s w
  constructor
  · intro h
    unfold get_restaurants_open_on_day
    rw [if_pos (by omega : ¬ (0 ≤ w ∧ w ≤ 6))]
  · intro h0 h6 hl
    unfold get_restaurants_open_on_day
    rw [if_neg (by omega : ¬ ¬ (0 ≤ w ∧ w ≤ 6)), if_pos hl]

/-- Witness for C9: on a fresh (unloaded) service, weekday -1 raises the
range `ValueError` while weekday 3 raises the not-loaded `RuntimeError`. -/
theorem C9_witness :
    get_restaurants_open_on_day ⟨[], false⟩ (-1)
      = .error (.valueError "Weekday must be between 0 (Monday) and 6 (Sunday)")
    ∧ get_restaurants_open_on_day ⟨[], false⟩ 3
      = .error (.runtimeError "Restaurant data not loaded. Call load_restaurants_from_csv first.") :=
  ⟨(C9_weekday_check_first ⟨[], false⟩ (-1)).1 (Or.inl (by decide)),
   (C9_weekday_check_first ⟨[], false⟩ 3).2 (by decide) (by decide) rfl⟩

/-- C1: parsing `"Mon-Thu, Sun 11:30 am - 10 pm / Fri-Sat 11:30 am - 11 pm"`
succeeds with key set exactly the seven weekdays, where days 0,1,2,3,6 each
carry the single range 11:30-22:00 and days 4,5 the single range
11:30-23:00. -/
theorem C1_complex_hours :
    ∃ sched, parse_restaurant_hours "Mon-Thu, Sun 11:30 am - 10 pm / Fri-Sat 11:30 am - 11 pm" = .ok sched
      ∧ List.insertionSort (· ≤ ·) (schedKeys sched) = [0, 1, 2, 3, 4, 5, 6]
      ∧ (∀ d ∈ [0, 1, 2, 3, 6], schedLookup sched d = some ⟨[⟨⟨11, 30⟩, ⟨22, 0⟩⟩]⟩)
      ∧ (∀ d ∈ [4, 5], schedLookup sched d = some ⟨[⟨⟨11, 30⟩, ⟨23, 0⟩⟩]⟩) :=
  ⟨[(0, ⟨[⟨⟨11, 30⟩, ⟨22, 0⟩⟩]⟩), (1, ⟨[⟨⟨11, 30⟩, ⟨22, 0⟩⟩]⟩), (2, ⟨[⟨⟨11, 30⟩, ⟨22, 0⟩⟩]⟩),
    (3, ⟨[⟨⟨11, 30⟩, ⟨22, 0⟩⟩]⟩), (6, ⟨[⟨⟨11, 30⟩, ⟨22, 0⟩⟩]⟩),
    (4, ⟨[⟨⟨11, 30⟩, ⟨23, 0⟩⟩]⟩), (5, ⟨[⟨⟨11, 30⟩, ⟨23, 0⟩⟩]⟩)],
   by decide, by decide, by decide, by decide⟩

/-- The per-record outcome of the CSV loader: `none` for a record that is
dropped (wrong field count or unparseable hours), `some` for a kept
restaurant. -/
def rowToRestaurant (row : List String) : Option Restaurant :=
  match row with
  | [name, hours] =>
    match parse_restaurant_hours hours with
    | .ok schedule => some (Restaurant.mk name schedule)
    | .error _ => none
  | _ => none

lemma csv_step_eq (acc : List Restaurant) (row : List String) :
    (match row with
      | [name, hours] =>
        match parse_restaurant_hours hours with
        | .ok schedule => acc ++ [Restaurant.mk name schedule]
        | .error _ => acc
      | _ => acc)
    = acc ++ (rowToRestaurant row).toList := by
  match row with
  | [] => simp [rowToRestaurant]
  | [_] => simp [rowToRestaurant]
  | [name, hours] =>
    cases h : parse_restaurant_hours hours <;> simp [rowToRestaurant, h]
  | _ :: _ :: _ :: _ => simp [rowToRestaurant]

lemma csv_foldl_eq (rows : List (List String)) : ∀ acc : List Restaurant,
    rows.foldl (fun acc row =>
      match row with
      | [name, hours] =>
        match parse_restaurant_hours hours with
        | .ok schedule => acc ++ [Restaurant.mk name schedule]
        | .error _ => acc
      | _ => acc) acc
    = acc ++ rows.filterMap rowToRestaurant := by
  induction rows with
  | nil => intro acc; simp
  | cons r rs ih =>
    intro acc
    rw [List.foldl_cons, csv_step_eq]
    rw [ih]
    cases h : rowToRestaurant r with
    | none => simp [List.filterMap_cons, h]
    | some v => simp [List.filterMap_cons, h]

/-- Counterexample to C6 as stated: the loader is not total — on
`"Name,Hours\nA\rB,x"` the csv reader hits a bare carriage return inside
an unquoted field, raises `csv.Error` (uncaught by
`parse_restaurants_from_csv`), and the whole load fails. -/
theorem C6_counterexample :
    (parse_restaurants_from_csvE "Name,Hours\nA\rB,x").isOk = false
    ∧ (∃ m, parse_restaurants_from_csvE "Name,Hours\nA\rB,x"
        = Except.error (.csvError m)) :=
  ⟨by decide, ⟨csvNewlineErrMsg, by decide⟩⟩

/-- C6 (amended): the loader fails exactly when the csv reader itself
raises `csv.Error`, which it propagates unchanged (second conjunct); on
every input the reader parses, the load never fails and equals the
per-record `filterMap` over the records after the discarded header — so
wrong-field-count records and records with unparseable hours are dropped
without affecting the others, survivors keep input order, and an empty or
header-only input yields the empty list.  The last conjunct shows a
malformed-hours row being dropped between two kept rows. -/
theorem C6_csv_tolerance :
    (∀ (content : String) (rows : List (List String)),
      csvParseE content.data = Except.ok rows →
      parse_restaurants_from_csvE content
        = Except.ok ((rows.drop 1).filterMap rowToRestaurant))
    ∧ (∀ (content : String) (e : PyErr),
      csvParseE content.data = Except.error e →
      parse_restaurants_from_csvE content = Except.error e)
    ∧ parse_restaurants_from_csvE "" = Except.ok []
    ∧ parse_restaurants_from_csvE "Restaurant Name,Hours" = Except.ok []
    ∧ (∃ l, parse_restaurants_from_csvE
        "Name,Hours\nA,Mon 1 pm - 2 pm\nB,garbage\nC,Mon 1 pm - 2 pm" = Except.ok l
        ∧ l.map Restaurant.name = ["A", "C"]) := by
  refine ⟨?_, ?_, by decide, by decide, ?_⟩
  · intro content rows h
    unfold parse_restaurants_from_csvE
    rw [h]
    cases rows with
    | nil => rfl
    | cons hd rest => simp [csv_foldl_eq]
  · intro content e h
    unfold parse_restaurants_from_csvE
    rw [h]
  · exact ⟨[⟨"A", [(0, ⟨[⟨⟨13, 0⟩, ⟨14, 0⟩⟩]⟩)]⟩, ⟨"C", [(0, ⟨[⟨⟨13, 0⟩, ⟨14, 0⟩⟩]⟩)]⟩],
      by decide, by decide⟩

/-- Witness for C6 on a two-record input accepted by the reader. -/
theorem C6_witness :
    parse_restaurants_from_csvE "Name,Hours\nA,Mon 1 pm - 2 pm"
      = Except.ok ((([["Name", "Hours"], ["A", "Mon 1 pm - 2 pm"]] : List (List String)).drop 1).filterMap
          rowToRestaurant) :=
  C6_csv_tolerance.1 "Name,Hours\nA,Mon 1 pm - 2 pm"
    [["Name", "Hours"], ["A", "Mon 1 pm - 2 pm"]] (by decide)

lemma foldl_open_names (w : Nat) (t : Time) (rs : List Restaurant) : ∀ acc : List String,
    rs.foldl (fun acc r => if r.is_open_at w t then acc ++ [r.name] else acc) acc
    = acc ++ (rs.filter (fun r => r.is_open_at w t)).map Restaurant.name := by
  induction rs with
  | nil => intro acc; simp
  | cons r rs ih =>
    intro acc
    rw [List.foldl_cons, List.filter_cons]
    cases h : r.is_open_at w t with
    | false => simp only [h, Bool.false_eq_true, if_false]; rw [ih]
    | true => simp only [h, if_true]; rw [ih]; simp

lemma is_open_at_iff (r : Restaurant) (w : Nat) (t : Time) :
    r.is_open_at w t = true ↔
    ∃ ds, schedLookup r.schedule w = some ds ∧ ∃ tr ∈ ds.time_ranges, tr.contains_time t = true := by
  unfold Restaurant.is_open_at
  cases h : schedLookup r.schedule w with
  | none => simp [h]
  | some ds => simp [h, DaySchedule.is_open_at_time, List.any_eq_true]

/-- C7: `find_open_restaurants` (query instant already decomposed into
weekday and time of day) raises the not-loaded `RuntimeError` on an
unloaded service; on a loaded one it returns, sorted ascending, exactly the
names of the loaded restaurants whose schedule has the weekday as a key
with some time range containing the query time.  The function reads the
state and returns only a name list, so the collection is untouched. -/
theorem C7_query_open : ∀ (s : RestaurantService) (w : Nat) (t : Time),
    (s.loaded = false → find_open_restaurants s w t
      = .error (.runtimeError "Restaurant data not loaded. Call load_restaurants_from_csv first."))
    ∧ (s.loaded = true → ∃ l, find_open_restaurants s w t = .ok l
        ∧ l.Sorted (· ≤ ·)
        ∧ l.Perm ((s.restaurants.filter (fun r => r.is_open_at w t)).map Restaurant.name)
        ∧ (∀ n, n ∈ l ↔ ∃ r ∈ s.restaurants, r.name = n
            ∧ ∃ ds, schedLookup r.schedule w = some ds
            ∧ ∃ tr ∈ ds.time_ranges, tr.contains_time t = true)) := by
  intro s w t
  constructor
  · intro h
    unfold find_open_restaurants
    rw [if_pos h]
  · intro h
    unfold find_open_restaurants
    rw [if_neg (by simp [h])]
    have hperm : (List.insertionSort (· ≤ ·)
        (s.restaurants.foldl (fun acc r => if r.is_open_at w t then acc ++ [r.name] else acc) [])).Perm
        ((s.restaurants.filter (fun r => r.is_open_at w t)).map Restaurant.name) := by
      rw [foldl_open_names, List.nil_append]
      exact List.perm_insertionSort _ _
    refine ⟨_, rfl, List.sorted_insertionSort _ _, hperm, ?_⟩
    · intro n
      rw [hperm.mem_iff]
      simp only [List.mem_map, List.mem_filter]
      constructor
      · rintro ⟨r, ⟨hmem, hopen⟩, hname⟩
        exact ⟨r, hmem, hname, (is_open_at_iff r w t).mp hopen⟩
      · rintro ⟨r, hmem, hname, hopen⟩
        exact ⟨r, ⟨hmem, (is_open_at_iff r w t).mpr hopen⟩, hname⟩

/-- Witness for C7 on a loaded one-restaurant service queried inside its
Monday range. -/
theorem C7_witness :
    ∃ l, find_open_restaurants ⟨[⟨"A", [(0, ⟨[⟨⟨13, 0⟩, ⟨14, 0⟩⟩]⟩)]⟩], true⟩ 0 ⟨13, 30⟩ = .ok l
      ∧ l.Sorted (· ≤ ·)
      ∧ l.Perm ((([⟨"A", [(0, ⟨[⟨⟨13, 0⟩, ⟨14, 0⟩⟩]⟩)]⟩] : List Restaurant).filter
          (fun r => r.is_open_at 0 ⟨13, 30⟩)).map Restaurant.name)
      ∧ (∀ n, n ∈ l ↔ ∃ r ∈ ([⟨"A", [(0, ⟨[⟨⟨13, 0⟩, ⟨14, 0⟩⟩]⟩)]⟩] : List Restaurant), r.name = n
          ∧ ∃ ds, schedLookup r.schedule 0 = some ds
          ∧ ∃ tr ∈ ds.time_ranges, tr.contains_time ⟨13, 30⟩ = true) :=
  (C7_query_open ⟨[⟨"A", [(0, ⟨[⟨⟨13, 0⟩, ⟨14, 0⟩⟩]⟩)]⟩], true⟩ 0 ⟨13, 30⟩).2 rfl

lemma rangeIncl_mem_le (a b d : Nat) (h : d ∈ rangeIncl a b) : a ≤ d ∧ d ≤ b := by
  unfold rangeIncl at h
  simp only [List.mem_map, List.mem_range] at h
  obtain ⟨i, hi, rfl⟩ := h
  omega

lemma rangeIncl_mem_iff (a b d : Nat) (hab : a ≤ b) : d ∈ rangeIncl a b ↔ (a ≤ d ∧ d ≤ b) := by
  unfold rangeIncl
  simp only [List.mem_map, List.mem_range]
  constructor
  · rintro ⟨i, hi, rfl⟩; omega
  · rintro ⟨h1, h2⟩; exact ⟨d - a, by omega, by omega⟩

lemma day_mapping_le6 (cs : List Char) (i : Nat) (h : day_mapping cs = some i) : i ≤ 6 := by
  unfold day_mapping at h
  repeat' split at h
  all_goals simp_all
  all_goals omega

/-- The denotation the specification assigns to one comma-separated day
segment: a `start-end` pair covers the inclusive index range when
`start ≤ end` and wraps through the end of the week otherwise; a plain
token denotes its table entry. -/
def SegmentDenotes (part : List Char) (d : Nat) : Prop :=
  (∀ sd ed, splitFirst '-' (trimList part) = some (sd, ed) →
    ∃ si ei, day_mapping (trimList sd) = some si ∧ day_mapping (trimList ed) = some ei
      ∧ ((si ≤ ei ∧ si ≤ d ∧ d ≤ ei) ∨ (ei < si ∧ (si ≤ d ∧ d ≤ 6 ∨ d ≤ ei))))
  ∧ (splitFirst '-' (trimList part) = none → day_mapping (trimList part) = some d)

/-- A day segment containing a token outside the fixed day-name table. -/
def UnknownSegment (part : List Char) : Prop :=
  (∀ sd ed, splitFirst '-' (trimList part) = some (sd, ed) →
    day_mapping (trimList sd) = none ∨ day_mapping (trimList ed) = none)
  ∧ (splitFirst '-' (trimList part) = none → day_mapping (trimList part) = none)

lemma parseSegment_mem (part : List Char) (r : List Nat) (h : parseSegment part = Except.ok r)
    (d : Nat) : d ∈ r ↔ SegmentDenotes part d := by
  simp only [parseSegment] at h
  unfold SegmentDenotes
  split at h
  next sd ed heq =>
    split at h
    next si ei hm1 hm2 =>
      simp only [Except.ok.injEq] at h
      subst h
      constructor
      · intro hmem
        constructor
        · intro sd' ed' hpair
          rw [heq] at hpair
          obtain ⟨rfl, rfl⟩ := Prod.mk.inj (Option.some.inj hpair)
          refine ⟨si, ei, hm1, hm2, ?_⟩
          by_cases hsi : si ≤ ei
          · rw [if_pos hsi] at hmem
            have := rangeIncl_mem_le si ei d hmem
            omega
          · rw [if_neg hsi] at hmem
            rcases List.mem_append.mp hmem with hm | hm
            · have := rangeIncl_mem_le si 6 d hm; omega
            · have := rangeIncl_mem_le 0 ei d hm; omega
        · intro hno
          rw [heq] at hno
          exact Option.noConfusion hno
      · rintro ⟨harm, -⟩
        obtain ⟨si', ei', hm1', hm2', hcond⟩ := harm sd ed heq
        rw [hm1] at hm1'; rw [hm2] at hm2'
        obtain rfl := Option.some.inj hm1'
        obtain rfl := Option.some.inj hm2'
        have hsi6 := day_mapping_le6 _ _ hm1
        have hei6 := day_mapping_le6 _ _ hm2
        by_cases hsi : si ≤ ei
        · rw [if_pos hsi, rangeIncl_mem_iff _ _ _ hsi]
          omega
        · rw [if_neg hsi, List.mem_append, rangeIncl_mem_iff _ _ _ hsi6,
            rangeIncl_mem_iff _ _ _ (Nat.zero_le _)]
          omega
    next hboth =>
      exact absurd h (by simp)
  next heq =>
    split at h
    next i hm =>
      simp only [Except.ok.injEq] at h
      subst h
      constructor
      · intro hmem
        rw [List.mem_singleton] at hmem
        subst hmem
        refine ⟨fun sd ed hpair => ?_, fun _ => hm⟩
        rw [heq] at hpair
        exact Option.noConfusion hpair
      · rintro ⟨-, harm⟩
        have hd := harm heq
        rw [hm] at hd
        rw [List.mem_singleton]
        exact (Option.some.inj hd).symm
    next hm =>
      exact absurd h (by simp)

lemma segmentDenotes_le6 (part : List Char) (d : Nat) (h : SegmentDenotes part d) : d ≤ 6 := by
  obtain ⟨h1, h2⟩ := h
  cases heq : splitFirst '-' (trimList part) with
  | some p =>
    obtain ⟨sd, ed⟩ := p
    obtain ⟨si, ei, hm1, hm2, hcond⟩ := h1 sd ed heq
    have he6 := day_mapping_le6 _ _ hm2
    have hs6 := day_mapping_le6 _ _ hm1
    omega
  | none => exact day_mapping_le6 _ _ (h2 heq)

lemma parseSegment_error_shape (part : List Char) :
    (∃ r, parseSegment part = Except.ok r) ∨ ∃ m, parseSegment part = Except.error (.valueError m) := by
  simp only [parseSegment]
  split
  next sd ed heq =>
    split
    next si ei hm1 hm2 => exact Or.inl ⟨_, rfl⟩
    next => exact Or.inr ⟨_, rfl⟩
  next heq =>
    split
    next i hm => exact Or.inl ⟨_, rfl⟩
    next hm => exact Or.inr ⟨_, rfl⟩

lemma parseSegment_unknown (part : List Char) (h : UnknownSegment part) :
    ∃ m, parseSegment part = Except.error (.valueError m) := by
  obtain ⟨h1, h2⟩ := h
  simp only [parseSegment]
  split
  next sd ed heq =>
    split
    next si ei hm1 hm2 =>
      rcases h1 sd ed heq with hn | hn
      · rw [hn] at hm1; exact Option.noConfusion hm1
      · rw [hn] at hm2; exact Option.noConfusion hm2
    next => exact ⟨_, rfl⟩
  next heq =>
    split
    next i hm =>
      rw [h2 heq] at hm
      exact Option.noConfusion hm
    next hm => exact ⟨_, rfl⟩

lemma foldlM_seg_ok_mem (parts : List (List Char)) : ∀ (acc res : List Nat),
    parts.foldlM (fun acc part => (parseSegment part).map (acc ++ ·)) acc = Except.ok res →
    ∀ d, d ∈ res ↔ d ∈ acc ∨ ∃ part ∈ parts, ∃ r, parseSegment part = Except.ok r ∧ d ∈ r := by
  induction parts with
  | nil =>
    intro acc res h d
    rw [List.foldlM_nil] at h
    obtain rfl := Except.ok.inj h
    simp
  | cons p ps ih =>
    intro acc res h d
    rw [List.foldlM_cons] at h
    cases hseg : parseSegment p with
    | error e =>
      rw [hseg] at h
      exact Except.noConfusion h
    | ok r =>
      rw [hseg] at h
      have h2 : ps.foldlM (fun acc part => (parseSegment part).map (acc ++ ·)) (acc ++ r)
          = Except.ok res := h
      have hmem := ih (acc ++ r) res h2 d
      rw [hmem, List.mem_append, List.exists_mem_cons_iff]
      constructor
      · rintro ((hd | hd) | hd)
        · exact Or.inl hd
        · exact Or.inr (Or.inl ⟨r, hseg, hd⟩)
        · exact Or.inr (Or.inr hd)
      · rintro (hd | (⟨r', hr', hd⟩ | hd))
        · exact Or.inl (Or.inl hd)
        · rw [hseg] at hr'
          obtain rfl := Except.ok.inj hr'
          exact Or.inl (Or.inr hd)
        · exact Or.inr hd

lemma foldlM_seg_ok_parts (parts : List (List Char)) : ∀ (acc res : List Nat),
    parts.foldlM (fun acc part => (parseSegment part).map (acc ++ ·)) acc = Except.ok res →
    ∀ part ∈ parts, ∃ r, parseSegment part = Except.ok r := by
  induction parts with
  | nil => intro acc res _ part hmem; exact absurd hmem (by simp)
  | cons p ps ih =>
    intro acc res h part hmem
    rw [List.foldlM_cons] at h
    cases hseg : parseSegment p with
    | error e =>
      rw [hseg] at h
      exact Except.noConfusion h
    | ok r =>
      rw [hseg] at h
      rcases List.mem_cons.mp hmem with rfl | hmem2
      · exact ⟨r, hseg⟩
      · exact ih (acc ++ r) res h part hmem2

lemma foldlM_seg_fails (parts : List (List Char)) : ∀ acc : List Nat,
    (∃ part ∈ parts, ∀ r, parseSegment part ≠ Except.ok r) →
    ∃ m, parts.foldlM (fun acc part => (parseSegment part).map (acc ++ ·)) acc
      = Except.error (.valueError m) := by
  induction parts with
  | nil =>
    rintro acc ⟨part, hmem, -⟩
    exact absurd hmem (by simp)
  | cons p ps ih =>
    rintro acc ⟨part, hmem, hfail⟩
    rw [List.foldlM_cons]
    cases hseg : parseSegment p with
    | error e =>
      rcases parseSegment_error_shape p with ⟨r, hr⟩ | ⟨m, hm⟩
      · rw [hseg] at hr; exact Except.noConfusion hr
      · rw [hseg] at hm
        obtain rfl := Except.error.inj hm
        exact ⟨m, rfl⟩
    | ok r =>
      rcases List.mem_cons.mp hmem with rfl | hmem2
      · exact absurd hseg (hfail r)
      · have := ih (acc ++ r) ⟨part, hmem2, hfail⟩
        obtain ⟨m, hm⟩ := this
        exact ⟨m, hm⟩

lemma parse_day_range_eq (ds : List Char) :
    parse_day_range ds = ((splitOnChar ',' (toLowerList (trimList ds))).foldlM
      (fun acc part => (parseSegment part).map (acc ++ ·)) ([] : List Nat)).map
      (fun days => List.insertionSort (· ≤ ·) days.dedup) := by
  simp only [parse_day_range]
  cases hf : (splitOnChar ',' (toLowerList (trimList ds))).foldlM
      (fun acc part => (parseSegment part).map (acc ++ ·)) ([] : List Nat) with
  | error e => rfl
  | ok days => rfl

lemma parse_day_range_char (ds : List Char) (days : List Nat)
    (h : parse_day_range ds = Except.ok days) :
    days.Sorted (· < ·)
    ∧ (∀ d, d ∈ days ↔ ∃ part ∈ splitOnChar ',' (toLowerList (trimList ds)), SegmentDenotes part d) := by
  rw [parse_day_range_eq] at h
  cases hf : (splitOnChar ',' (toLowerList (trimList ds))).foldlM
      (fun acc part => (parseSegment part).map (acc ++ ·)) ([] : List Nat) with
  | error e =>
    rw [hf] at h
    exact Except.noConfusion h
  | ok raw =>
    rw [hf] at h
    have hdays : List.insertionSort (· ≤ ·) raw.dedup = days := Except.ok.inj h
    subst hdays
    constructor
    · have hsorted := List.sorted_insertionSort (· ≤ ·) raw.dedup
      have hnodup : (List.insertionSort (· ≤ ·) raw.dedup).Nodup :=
        ((List.perm_insertionSort _ _).nodup_iff).mpr raw.nodup_dedup
      exact (hsorted.and hnodup).imp (fun hab => lt_of_le_of_ne hab.1 hab.2)
    · intro d
      rw [(List.perm_insertionSort (· ≤ ·) raw.dedup).mem_iff, List.mem_dedup,
        foldlM_seg_ok_mem _ _ _ hf d]
      simp only [List.not_mem_nil, false_or]
      constructor
      · rintro ⟨part, hp, r, hr, hd⟩
        exact ⟨part, hp, (parseSegment_mem part r hr d).mp hd⟩
      · rintro ⟨part, hp, hden⟩
        obtain ⟨r, hr⟩ := foldlM_seg_ok_parts _ _ _ hf part hp
        exact ⟨part, hp, r, hr, (parseSegment_mem part r hr d).mpr hden⟩

/-- C5: on success, `parse_day_range` returns a strictly sorted (hence
duplicate-free) list whose members are exactly the union of the
denotations of the comma-separated segments — an inclusive index range for
`start ≤ end`, the week-wrapped pair of ranges otherwise — and a segment
with a token outside the day table makes the whole call fail with the
unknown-day `ValueError`.  `"Mon-Fri"` gives days 0-4 and `"Sat-Mon"`
wraps to give days 5, 6 and 0. -/
theorem C5_day_range :
    (∀ (ds : List Char) (days : List Nat), parse_day_range ds = Except.ok days →
      days.Sorted (· < ·)
      ∧ (∀ d, d ∈ days ↔ ∃ part ∈ splitOnChar ',' (toLowerList (trimList ds)), SegmentDenotes part d))
    ∧ (∀ ds : List Char,
      (∃ part ∈ splitOnChar ',' (toLowerList (trimList ds)), UnknownSegment part) →
      ∃ m, parse_day_range ds = Except.error (PyErr.valueError m))
    ∧ parse_day_range "Mon-Fri".data = Except.ok [0, 1, 2, 3, 4]
    ∧ parse_day_range "Sat-Mon".data = Except.ok [0, 5, 6] := by
  refine ⟨parse_day_range_char, ?_, by decide, by decide⟩
  rintro ds ⟨part, hp, hunk⟩
  obtain ⟨m0, hm0⟩ := parseSegment_unknown part hunk
  have hfail : ∀ r, parseSegment part ≠ Except.ok r := by
    intro r hc
    rw [hm0] at hc
    exact Except.noConfusion hc
  obtain ⟨m, hm⟩ := foldlM_seg_fails (splitOnChar ',' (toLowerList (trimList ds))) []
    ⟨part, hp, hfail⟩
  refine ⟨m, ?_⟩
  rw [parse_day_range_eq, hm]
  rfl

/-- Witness for C5 on the segment list of `"Mon-Fri"`. -/
theorem C5_witness : List.Sorted (· < ·) ([0, 1, 2, 3, 4] : List Nat) :=
  (C5_day_range.1 "Mon-Fri".data [0, 1, 2, 3, 4] (by decide)).1

/-- The invariant C10 claims for parser-produced schedules: keys in 0-6 and
no empty day schedule. -/
def schedInv (s : Sched) : Prop := ∀ p ∈ s, p.1 ≤ 6 ∧ p.2.time_ranges ≠ []

lemma schedAppend_inv (s : Sched) (d : Nat) (tr : TimeRange) (hs : schedInv s) (hd : d ≤ 6) :
    schedInv (schedAppend s d tr) := by
  induction s with
  | nil =>
    intro p hp
    simp only [schedAppend, List.mem_singleton] at hp
    subst hp
    exact ⟨hd, by simp⟩
  | cons kd rest ih =>
    obtain ⟨k, ds⟩ := kd
    intro p hp
    simp only [schedAppend] at hp
    by_cases hk : k = d
    · rw [if_pos hk] at hp
      rcases List.mem_cons.mp hp with rfl | hp2
      · exact ⟨(hs (k, ds) (List.mem_cons_self _ _)).1, by simp⟩
      · exact hs p (List.mem_cons_of_mem _ hp2)
    · rw [if_neg hk] at hp
      rcases List.mem_cons.mp hp with rfl | hp2
      · exact hs (k, ds) (List.mem_cons_self _ _)
      · exact ih (fun q hq => hs q (List.mem_cons_of_mem _ hq)) p hp2

lemma foldl_schedAppend_inv (tr : TimeRange) (days : List Nat) : ∀ s : Sched, schedInv s →
    (∀ d ∈ days, d ≤ 6) → schedInv (days.foldl (fun s d => schedAppend s d tr) s) := by
  induction days with
  | nil => intro s hs _; exact hs
  | cons d ds ih =>
    intro s hs hd
    rw [List.foldl_cons]
    exact ih _ (schedAppend_inv s d tr hs (hd d (List.mem_cons_self _ _)))
      (fun x hx => hd x (List.mem_cons_of_mem _ hx))

lemma parse_day_range_le6 (ds : List Char) (days : List Nat)
    (h : parse_day_range ds = Except.ok days) : ∀ d ∈ days, d ≤ 6 := by
  intro d hd
  have := ((parse_day_range_char ds days h).2 d).mp hd
  obtain ⟨part, -, hden⟩ := this
  exact segmentDenotes_le6 part d hden

lemma fallback_parse_inv (sched : Sched) (period : List Char) (sched' : Sched)
    (h : fallback_parse sched period = Except.ok sched') (hs : schedInv sched) :
    schedInv sched' := by
  unfold fallback_parse at h
  split at h
  next => exact Except.noConfusion h
  next pos hpos =>
    cases hdr : parse_day_range (trimList (List.take pos period)) with
    | error e =>
      rw [hdr] at h
      exact Except.noConfusion h
    | ok days =>
      rw [hdr] at h
      cases htr : parse_time_range (trimList (List.drop pos period)) with
      | error e =>
        rw [htr] at h
        exact Except.noConfusion h
      | ok tr =>
        rw [htr] at h
        have h2 : Except.ok (days.foldl (fun s d => schedAppend s d tr) sched)
            = Except.ok sched' := h
        obtain rfl := Except.ok.inj h2
        exact foldl_schedAppend_inv tr days sched hs (parse_day_range_le6 _ _ hdr)

lemma primary_parse_days (p0 p1 p2 p3 : List Char) (days : List Nat) (tr : TimeRange)
    (h : primary_parse p0 p1 p2 p3 = Except.ok (days, tr)) :
    parse_day_range p0 = Except.ok days := by
  unfold primary_parse at h
  cases hdr : parse_day_range p0 with
  | error e =>
    rw [hdr] at h
    exact Except.noConfusion h
  | ok days' =>
    rw [hdr] at h
    cases htr : parse_time_range (p1 ++ (' ' :: p2) ++ (' ' :: p3)) with
    | error e =>
      rw [htr] at h
      exact Except.noConfusion h
    | ok tr' =>
      rw [htr] at h
      have h2 : Except.ok (days', tr') = Except.ok (days, tr) := h
      obtain heq := Except.ok.inj h2
      obtain ⟨rfl, rfl⟩ := Prod.mk.inj heq
      rfl

lemma process_period_inv (sched : Sched) (p : List Char) (sched' : Sched)
    (h : process_period sched p = Except.ok sched') (hs : schedInv sched) : schedInv sched' := by
  simp only [process_period] at h
  split at h
  next =>
    obtain rfl := Except.ok.inj h
    exact hs
  next =>
    split at h
    next p0 p1 p2 p3 =>
      split at h
      next days tr hpp =>
        obtain rfl := Except.ok.inj h
        exact foldl_schedAppend_inv tr days sched hs
          (parse_day_range_le6 _ _ (primary_parse_days _ _ _ _ _ _ hpp))
      next e hpp =>
        exact fallback_parse_inv sched _ sched' h hs
    next =>
      exact Except.noConfusion h

lemma foldlM_process_inv (periods : List (List Char)) : ∀ (sched sched' : Sched),
    schedInv sched → periods.foldlM process_period sched = Except.ok sched' →
    schedInv sched' := by
  induction periods with
  | nil =>
    intro sched sched' hs h
    rw [List.foldlM_nil] at h
    obtain rfl := Except.ok.inj h
    exact hs
  | cons p ps ih =>
    intro sched sched' hs h
    rw [List.foldlM_cons] at h
    cases hp : process_period sched p with
    | error e =>
      rw [hp] at h
      exact Except.noConfusion h
    | ok sched2 =>
      rw [hp] at h
      exact ih sched2 sched' (process_period_inv _ _ _ hp hs) h

/-- C10: every schedule produced by `parse_restaurant_hours` has keys only
in 0-6 and only non-empty day schedules, so for parser output "weekday key
present" coincides with "at least one open interval that day". -/
theorem C10_schedule_invariant : ∀ (hours_str : String) (sched : Sched),
    parse_restaurant_hours hours_str = Except.ok sched →
    ∀ p ∈ sched, p.1 ≤ 6 ∧ p.2.time_ranges ≠ [] := by
  intro hours_str sched h
  unfold parse_restaurant_hours at h
  exact foldlM_process_inv _ [] sched (fun p hp => absurd hp (by simp)) h

/-- Witness for C10 on the parse of `"Mon 1 pm - 2 pm"`. -/
theorem C10_witness :
    ((0, DaySchedule.mk [TimeRange.mk ⟨13, 0⟩ ⟨14, 0⟩]) : Nat × DaySchedule).1 ≤ 6
    ∧ ((0, DaySchedule.mk [TimeRange.mk ⟨13, 0⟩ ⟨14, 0⟩]) : Nat × DaySchedule).2.time_ranges ≠ [] :=
  C10_schedule_invariant "Mon 1 pm - 2 pm" [(0, ⟨[⟨⟨13, 0⟩, ⟨14, 0⟩⟩]⟩)] (by decide)
    (0, ⟨[⟨⟨13, 0⟩, ⟨14, 0⟩⟩]⟩) (by decide)

lemma dropWhile_head_false (p : Char → Bool) (l : List Char) (c : Char) (t : List Char)
    (h : l.dropWhile p = c :: t) : p c = false := by
  induction l with
  | nil => simp at h
  | cons a l' ih =>
    rw [List.dropWhile_cons] at h
    by_cases hp : p a
    · rw [if_pos hp] at h
      exact ih h
    · rw [if_neg hp] at h
      obtain ⟨rfl, -⟩ := List.cons.inj h
      simpa using hp

lemma dropWhile_idem (p : Char → Bool) (l : List Char) :
    (l.dropWhile p).dropWhile p = l.dropWhile p := by
  cases hd : l.dropWhile p with
  | nil => rfl
  | cons c t =>
    rw [List.dropWhile_cons]
    simp [dropWhile_head_false p l c t hd]

lemma trim_aux1 (l : List Char) : (trimList l).dropWhile isSpaceChar = trimList l := by
  unfold trimList
  cases hBr : ((l.dropWhile isSpaceChar).reverse.dropWhile isSpaceChar).reverse with
  | nil => rfl
  | cons e es =>
    have hC : (l.dropWhile isSpaceChar).reverse
        = (l.dropWhile isSpaceChar).reverse.takeWhile isSpaceChar
          ++ (l.dropWhile isSpaceChar).reverse.dropWhile isSpaceChar :=
      (List.takeWhile_append_dropWhile _ _).symm
    have hA : l.dropWhile isSpaceChar
        = (e :: es) ++ ((l.dropWhile isSpaceChar).reverse.takeWhile isSpaceChar).reverse :=
      calc l.dropWhile isSpaceChar
          = ((l.dropWhile isSpaceChar).reverse).reverse := (List.reverse_reverse _).symm
        _ = ((l.dropWhile isSpaceChar).reverse.takeWhile isSpaceChar
              ++ (l.dropWhile isSpaceChar).reverse.dropWhile isSpaceChar).reverse := by rw [← hC]
        _ = ((l.dropWhile isSpaceChar).reverse.dropWhile isSpaceChar).reverse
              ++ ((l.dropWhile isSpaceChar).reverse.takeWhile isSpaceChar).reverse :=
            List.reverse_append _ _
        _ = (e :: es) ++ ((l.dropWhile isSpaceChar).reverse.takeWhile isSpaceChar).reverse := by
            rw [hBr]
    have hpe : isSpaceChar e = false :=
      dropWhile_head_false isSpaceChar l e _ (hA.trans (List.cons_append _ _ _))
    rw [List.dropWhile_cons]
    simp [hpe]

lemma trim_aux2 (l : List Char) :
    (trimList l).reverse.dropWhile isSpaceChar = (trimList l).reverse := by
  unfold trimList
  rw [List.reverse_reverse]
  exact dropWhile_idem _ _

lemma trimList_idem (cs : List Char) : trimList (trimList cs) = trimList cs := by
  show (((trimList cs).dropWhile isSpaceChar).reverse.dropWhile isSpaceChar).reverse = trimList cs
  rw [trim_aux1, trim_aux2, List.reverse_reverse]

lemma splitOnChar_no_sep (sep : Char) (cs : List Char) (h : sep ∉ cs) :
    splitOnChar sep cs = [cs] := by
  induction cs with
  | nil => rfl
  | cons c cs' ih =>
    simp only [splitOnChar]
    rw [if_neg (fun hcc => h (List.mem_cons.mpr (Or.inl hcc.symm)))]
    rw [ih (fun hx => h (List.mem_cons_of_mem _ hx))]

lemma parse_restaurant_hours_single (s : String) (h : '/' ∉ s.data) :
    parse_restaurant_hours s = process_period [] (trimList s.data) := by
  unfold parse_restaurant_hours
  rw [splitOnChar_no_sep '/' s.data h]
  simp only [List.map_cons, List.map_nil, List.foldlM_cons, List.foldlM_nil, bind_pure]

/-- C2 (amended): the fallback regex split is attempted only when the
primary right-anchored split yields at least four whitespace-delimited
tokens and the day/time parsing of that split fails; a non-empty period
with fewer than four tokens (such as `"Mon-Fri 11am-10pm"`) fails
immediately with the cannot-parse-period error, without the fallback being
attempted.  When the fallback is attempted, the period's result is exactly
the fallback's result. -/
theorem C2_fallback_scope : ∀ (s : String) (p0 p1 p2 p3 : List Char) (e : PyErr),
    '/' ∉ s.data →
    ((trimList s.data ≠ [] ∧ (rsplit3 (trimList s.data)).length < 4) →
      parse_restaurant_hours s
        = Except.error (.valueError ("Cannot parse time period: " ++ String.mk (trimList s.data))))
    ∧ (rsplit3 (trimList s.data) = [p0, p1, p2, p3] →
      primary_parse p0 p1 p2 p3 = Except.error e →
      parse_restaurant_hours s = fallback_parse [] (trimList s.data)) := by
  intro s p0 p1 p2 p3 e hslash
  have hsingle := parse_restaurant_hours_single s hslash
  rw [hsingle]
  constructor
  · rintro ⟨hne, hlen⟩
    simp only [process_period]
    rw [trimList_idem]
    rw [if_neg hne]
    split
    next q0 q1 q2 q3 hq =>
      rw [hq] at hlen
      simp at hlen
    next => rfl
  · intro hr hpp
    have hne : trimList s.data ≠ [] := by
      intro h0
      rw [h0] at hr
      simp [rsplit3, splitOnChar, joinWithChar] at hr
    simp only [process_period]
    rw [trimList_idem]
    rw [if_neg hne]
    split
    next q0 q1 q2 q3 hq =>
      have hqq := hq.symm.trans hr
      simp only [List.cons.injEq, and_true] at hqq
      obtain ⟨rfl, rfl, rfl, rfl⟩ := hqq
      split
      next days tr hok =>
        rw [hpp] at hok
        exact Except.noConfusion hok
      next e' he' => rfl
    next hns =>
      exact (hns p0 p1 p2 p3 hr).elim

/-- Counterexample to C2 as stated: the period `"Mon-Fri 11am-10pm"` has
only two whitespace-delimited tokens, so the primary split's token-count
check raises outside the `try` block and `parse_restaurant_hours` fails —
even though the fallback split would have parsed it (second conjunct). -/
theorem C2_counterexample :
    parse_restaurant_hours "Mon-Fri 11am-10pm"
      = Except.error (.valueError "Cannot parse time period: Mon-Fri 11am-10pm")
    ∧ (fallback_parse [] "Mon-Fri 11am-10pm".data).isOk = true :=
  ⟨by decide, by decide⟩

/-- Witness for C2: the short-token period fails with the period error, and
a period whose primary split has four tokens but unparseable day text is
handed to the fallback. -/
theorem C2_witness :
    parse_restaurant_hours "Mon-Fri 11am-10pm"
      = Except.error (.valueError ("Cannot parse time period: "
          ++ String.mk (trimList "Mon-Fri 11am-10pm".data)))
    ∧ parse_restaurant_hours "Mon-Fri 11:30 am - 10 pm"
      = fallback_parse [] (trimList "Mon-Fri 11:30 am - 10 pm".data) :=
  ⟨(C2_fallback_scope "Mon-Fri 11am-10pm" [] [] [] [] (.valueError "") (by decide)).1
      ⟨by decide, by decide⟩,
   (C2_fallback_scope "Mon-Fri 11:30 am - 10 pm" "Mon-Fri 11:30 am".data "-".data "10".data
      "pm".data (.valueError "Unknown day in range: mon-fri 11:30 am") (by decide)).2
      (by decide) (by decide)⟩

/-- The numeric value of the (one- or two-digit) hour group. -/
def hourPart : List Char → Nat
  | [c] => digitVal c
  | [c1, c2] => 10 * digitVal c1 + digitVal c2
  | _ => 0

/-- The numeric value of the optional `:mm` minute group (0 when absent). -/
def minutePart : List Char → Nat
  | [':', c1, c2] => 10 * digitVal c1 + digitVal c2
  | _ => 0

/-- The specification's time grammar, stated declaratively: the text starts
with a 1-2 digit hour, an optional colon-plus-two-digit minute group,
optional whitespace and an `am`/`pm` suffix, with arbitrary trailing
characters permitted; `h` and `m` are the matched numeric values. -/
def TimePatternAt (s : List Char) (h m : Nat) (pm : Bool) : Prop :=
  ∃ hd mp ws rest : List Char,
    s = hd ++ (mp ++ (ws ++ ((if pm then ['p', 'm'] else ['a', 'm']) ++ rest)))
    ∧ (hd.length = 1 ∨ hd.length = 2)
    ∧ (∀ c ∈ hd, c.isDigit = true)
    ∧ (mp = [] ∨ ∃ c1 c2, mp = [':', c1, c2] ∧ c1.isDigit = true ∧ c2.isDigit = true)
    ∧ (∀ c ∈ ws, isSpaceChar c = true)
    ∧ h = hourPart hd ∧ m = minutePart mp

lemma not_digit_of_space (c : Char) (h : isSpaceChar c = true) : c.isDigit = false := by
  simp [isSpaceChar] at h
  rcases h with ((((h | h) | h) | h) | h) | h <;> subst h <;> decide

lemma matchAmPmLower_sound (cs : List Char) (pm : Bool) (h : matchAmPmLower cs = some pm) :
    ∃ rest, cs = (if pm then ['p', 'm'] else ['a', 'm']) ++ rest := by
  unfold matchAmPmLower at h
  split at h
  next c1 c2 t =>
    split at h
    next ham =>
      obtain rfl := Option.some.inj h
      simp only [Bool.and_eq_true, decide_eq_true_eq] at ham
      obtain ⟨rfl, rfl⟩ := ham
      exact ⟨t, rfl⟩
    next hnam =>
      split at h
      next hpm =>
        obtain rfl := Option.some.inj h
        simp only [Bool.and_eq_true, decide_eq_true_eq] at hpm
        obtain ⟨rfl, rfl⟩ := hpm
        exact ⟨t, rfl⟩
      next hnpm => exact Option.noConfusion h
  next => exact Option.noConfusion h

lemma afterMinute_sound (a b : Nat) (cs : List Char) (h m : Nat) (pm : Bool)
    (ha : afterMinute a b cs = some (h, m, pm)) :
    h = a ∧ m = b ∧ ∃ ws rest, cs = ws ++ ((if pm then ['p', 'm'] else ['a', 'm']) ++ rest)
      ∧ ∀ c ∈ ws, isSpaceChar c = true := by
  unfold afterMinute at ha
  cases hmm : matchAmPmLower (cs.dropWhile isSpaceChar) with
  | none => rw [hmm] at ha; exact Option.noConfusion ha
  | some pm' =>
    rw [hmm] at ha
    have heq : (a, b, pm') = (h, m, pm) := Option.some.inj ha
    obtain ⟨rfl, h2⟩ := Prod.mk.inj heq
    obtain ⟨rfl, rfl⟩ := Prod.mk.inj h2
    obtain ⟨rest, hrest⟩ := matchAmPmLower_sound _ _ hmm
    refine ⟨rfl, rfl, cs.takeWhile isSpaceChar, rest, ?_, fun c hc => List.mem_takeWhile_imp hc⟩
    rw [← hrest]
    exact (List.takeWhile_append_dropWhile _ _).symm

lemma afterHour_sound (a : Nat) (cs : List Char) (h m : Nat) (pm : Bool)
    (ha : afterHour a cs = some (h, m, pm)) :
    h = a ∧ ∃ mp ws rest, cs = mp ++ (ws ++ ((if pm then ['p', 'm'] else ['a', 'm']) ++ rest))
      ∧ (mp = [] ∨ ∃ c1 c2, mp = [':', c1, c2] ∧ c1.isDigit = true ∧ c2.isDigit = true)
      ∧ (∀ c ∈ ws, isSpaceChar c = true) ∧ m = minutePart mp := by
  unfold afterHour at ha
  split at ha
  next c rest0 =>
    split at ha
    next hc =>
      subst hc
      split at ha
      next c1 c2 rest2 =>
        split at ha
        next hdig =>
          simp only [Bool.and_eq_true] at hdig
          obtain ⟨rfl, rfl, ws, rest, hcs, hws⟩ := afterMinute_sound _ _ _ _ _ _ ha
          refine ⟨rfl, [':', c1, c2], ws, rest, ?_, Or.inr ⟨c1, c2, rfl, hdig.1, hdig.2⟩, hws, rfl⟩
          rw [hcs]
          rfl
        next => exact Option.noConfusion ha
      next => exact Option.noConfusion ha
    next hc =>
      obtain ⟨rfl, rfl, ws, rest, hcs, hws⟩ := afterMinute_sound _ _ _ _ _ _ ha
      exact ⟨rfl, [], ws, rest, hcs, Or.inl rfl, hws, rfl⟩
  next =>
    exact Option.noConfusion ha

lemma matchTimeStart_sound (s : List Char) (h m : Nat) (pm : Bool)
    (hma : matchTimeStart s = some (h, m, pm)) : TimePatternAt s h m pm := by
  unfold matchTimeStart at hma
  split at hma
  next c1 rest =>
    split at hma
    next hd1 =>
      split at hma
      next c2 rest2 =>
        split at hma
        next hd2 =>
          obtain ⟨rfl, mp, ws, rest', hcs, hmp, hws, hmin⟩ := afterHour_sound _ _ _ _ _ hma
          refine ⟨[c1, c2], mp, ws, rest', ?_, Or.inr rfl, ?_, hmp, hws, by simp [hourPart], hmin⟩
          · rw [hcs]; rfl
          · intro c hc
            rcases List.mem_cons.mp hc with rfl | hc2
            · exact hd1
            · rcases List.mem_cons.mp hc2 with rfl | hc3
              · exact hd2
              · exact absurd hc3 (by simp)
        next hd2 =>
          obtain ⟨rfl, mp, ws, rest', hcs, hmp, hws, hmin⟩ := afterHour_sound _ _ _ _ _ hma
          refine ⟨[c1], mp, ws, rest', ?_, Or.inl rfl, ?_, hmp, hws, by simp [hourPart], hmin⟩
          · rw [hcs]; rfl
          · intro c hc
            rcases List.mem_cons.mp hc with rfl | hc2
            · exact hd1
            · exact absurd hc2 (by simp)
      next =>
        exact Option.noConfusion hma
    next => exact Option.noConfusion hma
  next => exact Option.noConfusion hma

lemma dropWhile_append_of (ws l : List Char) (hws : ∀ c ∈ ws, isSpaceChar c = true)
    (hl : l.dropWhile isSpaceChar = l) : (ws ++ l).dropWhile isSpaceChar = l := by
  induction ws with
  | nil => simpa using hl
  | cons w ws' ih =>
    rw [List.cons_append, List.dropWhile_cons, if_pos (hws w (List.mem_cons_self _ _))]
    exact ih (fun c hc => hws c (List.mem_cons_of_mem _ hc))

lemma suffix_dropWhile (pm : Bool) (rest : List Char) :
    ((if pm then ['p', 'm'] else ['a', 'm']) ++ rest).dropWhile isSpaceChar
      = (if pm then ['p', 'm'] else ['a', 'm']) ++ rest := by
  cases pm
  · show (['a', 'm'] ++ rest).dropWhile isSpaceChar = ['a', 'm'] ++ rest
    rw [List.cons_append, List.dropWhile_cons,
      if_neg (by decide : ¬ (isSpaceChar 'a' = true))]
  · show (['p', 'm'] ++ rest).dropWhile isSpaceChar = ['p', 'm'] ++ rest
    rw [List.cons_append, List.dropWhile_cons,
      if_neg (by decide : ¬ (isSpaceChar 'p' = true))]

lemma matchAmPmLower_suffix (pm : Bool) (rest : List Char) :
    matchAmPmLower ((if pm then ['p', 'm'] else ['a', 'm']) ++ rest) = some pm := by
  cases pm <;> rfl

lemma afterMinute_complete (a b : Nat) (ws rest : List Char) (pm : Bool)
    (hws : ∀ c ∈ ws, isSpaceChar c = true) :
    afterMinute a b (ws ++ ((if pm then ['p', 'm'] else ['a', 'm']) ++ rest)) = some (a, b, pm) := by
  unfold afterMinute
  rw [dropWhile_append_of _ _ hws (suffix_dropWhile pm rest), matchAmPmLower_suffix]
  rfl

lemma afterHour_cons (a : Nat) (c : Char) (r : List Char) (hc : ¬ c = ':') :
    afterHour a (c :: r) = afterMinute a 0 (c :: r) := by
  simp only [afterHour]
  rw [if_neg hc]

lemma afterHour_colon (a : Nat) (c1 c2 : Char) (r : List Char) (h1 : c1.isDigit = true)
    (h2 : c2.isDigit = true) :
    afterHour a (':' :: c1 :: c2 :: r) = afterMinute a (10 * digitVal c1 + digitVal c2) r := by
  simp only [afterHour]
  simp [h1, h2]

lemma space_ne_colon (c : Char) (h : isSpaceChar c = true) : ¬ c = ':' := by
  simp [isSpaceChar] at h
  rcases h with ((((h | h) | h) | h) | h) | h <;> subst h <;> decide

lemma afterHour_complete (a : Nat) (mp ws rest : List Char) (pm : Bool)
    (hmp : mp = [] ∨ ∃ c1 c2, mp = [':', c1, c2] ∧ c1.isDigit = true ∧ c2.isDigit = true)
    (hws : ∀ c ∈ ws, isSpaceChar c = true) :
    afterHour a (mp ++ (ws ++ ((if pm then ['p', 'm'] else ['a', 'm']) ++ rest)))
      = some (a, minutePart mp, pm) := by
  rcases hmp with rfl | ⟨c1, c2, rfl, h1, h2⟩
  · rw [List.nil_append]
    cases ws with
    | nil =>
      rw [List.nil_append]
      cases pm
      · show afterHour a ('a' :: 'm' :: rest) = some (a, 0, false)
        rw [afterHour_cons _ _ _ (by decide)]
        exact afterMinute_complete a 0 [] rest false (by simp)
      · show afterHour a ('p' :: 'm' :: rest) = some (a, 0, true)
        rw [afterHour_cons _ _ _ (by decide)]
        exact afterMinute_complete a 0 [] rest true (by simp)
    | cons w ws' =>
      rw [List.cons_append, afterHour_cons _ _ _ (space_ne_colon w (hws w (List.mem_cons_self _ _))),
        ← List.cons_append]
      exact afterMinute_complete a 0 (w :: ws') rest pm hws
  · rw [List.cons_append, List.cons_append, List.cons_append, List.nil_append,
      afterHour_colon a c1 c2 _ h1 h2]
    exact afterMinute_complete a (10 * digitVal c1 + digitVal c2) ws rest pm hws

lemma matchTimeStart_two (c1 c2 : Char) (r : List Char) (h1 : c1.isDigit = true)
    (h2 : c2.isDigit = true) :
    matchTimeStart (c1 :: c2 :: r) = afterHour (10 * digitVal c1 + digitVal c2) r := by
  simp only [matchTimeStart]
  simp [h1, h2]

lemma matchTimeStart_one (c1 c2 : Char) (r : List Char) (h1 : c1.isDigit = true)
    (h2 : c2.isDigit = false) :
    matchTimeStart (c1 :: c2 :: r) = afterHour (digitVal c1) (c2 :: r) := by
  simp only [matchTimeStart]
  simp [h1, h2]

lemma tail_head_not_digit (mp ws rest : List Char) (pm : Bool)
    (hmp : mp = [] ∨ ∃ c1 c2, mp = [':', c1, c2] ∧ c1.isDigit = true ∧ c2.isDigit = true)
    (hws : ∀ c ∈ ws, isSpaceChar c = true) :
    ∃ c2 t2, mp ++ (ws ++ ((if pm then ['p', 'm'] else ['a', 'm']) ++ rest)) = c2 :: t2
      ∧ c2.isDigit = false := by
  rcases hmp with rfl | ⟨d1, d2, rfl, -, -⟩
  · cases ws with
    | nil =>
      cases pm
      · exact ⟨'a', 'm' :: rest, by simp, by decide⟩
      · exact ⟨'p', 'm' :: rest, by simp, by decide⟩
    | cons w ws' =>
      exact ⟨w, ws' ++ ((if pm then ['p', 'm'] else ['a', 'm']) ++ rest), by simp,
        not_digit_of_space w (hws w (List.mem_cons_self _ _))⟩
  · exact ⟨':', d1 :: d2 :: (ws ++ ((if pm then ['p', 'm'] else ['a', 'm']) ++ rest)), by simp,
      by decide⟩

lemma matchTimeStart_complete (s : List Char) (h m : Nat) (pm : Bool)
    (hp : TimePatternAt s h m pm) : matchTimeStart s = some (h, m, pm) := by
  obtain ⟨hd, mp, ws, rest, hs, hlen, hdig, hmp, hws, hh, hm⟩ := hp
  subst hs; subst hh; subst hm
  rcases hlen with h1 | h2
  · obtain ⟨c1, rfl⟩ := List.length_eq_one.mp h1
    obtain ⟨c2, t2, htail, hnd⟩ := tail_head_not_digit mp ws rest pm hmp hws
    simp only [List.cons_append, List.nil_append]
    rw [htail, matchTimeStart_one c1 c2 t2 (hdig c1 (List.mem_cons_self _ _)) hnd, ← htail,
      afterHour_complete (digitVal c1) mp ws rest pm hmp hws]
    rfl
  · obtain ⟨c1, c2, rfl⟩ := List.length_eq_two.mp h2
    simp only [List.cons_append, List.nil_append]
    rw [matchTimeStart_two c1 c2 _ (hdig c1 (List.mem_cons_self _ _))
        (hdig c2 (List.mem_cons_of_mem _ (List.mem_cons_self _ _))),
      afterHour_complete (10 * digitVal c1 + digitVal c2) mp ws rest pm hmp hws]
    rfl

lemma parseTimeChars_iff (cs : List Char) :
    (parseTimeChars cs).isOk = true ↔
    ∃ h m pm, TimePatternAt (toLowerList (trimList cs)) h m pm
      ∧ convHour h pm ≤ 23 ∧ m ≤ 59 := by
  simp only [parseTimeChars]
  generalize toLowerList (trimList cs) = t
  split
  next h1 =>
    simp only [Bool.or_eq_true, decide_eq_true_eq] at h1
    constructor
    · intro _
      rcases h1 with rfl | rfl
      · exact ⟨12, 0, false, ⟨['1', '2'], [], [' '], [], by decide, Or.inr rfl, by decide,
          Or.inl rfl, by decide, by decide, by decide⟩, by decide, by decide⟩
      · exact ⟨12, 0, false, ⟨['1', '2'], [':', '0', '0'], [' '], [], by decide, Or.inr rfl,
          by decide, Or.inr ⟨'0', '0', rfl, by decide, by decide⟩, by decide, by decide,
          by decide⟩, by decide, by decide⟩
    · intro _; rfl
  next h1 =>
    split
    next h2 =>
      simp only [Bool.or_eq_true, decide_eq_true_eq] at h2
      constructor
      · intro _
        rcases h2 with rfl | rfl
        · exact ⟨12, 0, true, ⟨['1', '2'], [], [' '], [], by decide, Or.inr rfl, by decide,
            Or.inl rfl, by decide, by decide, by decide⟩, by decide, by decide⟩
        · exact ⟨12, 0, true, ⟨['1', '2'], [':', '0', '0'], [' '], [], by decide, Or.inr rfl,
            by decide, Or.inr ⟨'0', '0', rfl, by decide, by decide⟩, by decide, by decide,
            by decide⟩, by decide, by decide⟩
      · intro _; rfl
    next h2 =>
      split
      next hnone =>
        constructor
        · intro hc
          exact Bool.noConfusion hc
        · rintro ⟨h, m, pm, hp, -, -⟩
          have hcomp := matchTimeStart_complete t h m pm hp
          rw [hnone] at hcomp
          exact Option.noConfusion hcomp
      next hour minute pm hsome =>
        split
        next hbounds =>
          simp only [Bool.and_eq_true, decide_eq_true_eq] at hbounds
          constructor
          · intro _
            exact ⟨hour, minute, pm, matchTimeStart_sound t hour minute pm hsome,
              hbounds.1, hbounds.2⟩
          · intro _; rfl
        next hbounds =>
          constructor
          · intro hc
            exact Bool.noConfusion hc
          · rintro ⟨h, m, pm', hp, hb1, hb2⟩
            have hcomp := matchTimeStart_complete t h m pm' hp
            rw [hsome] at hcomp
            have heq := Option.some.inj hcomp
            obtain ⟨rfl, h3⟩ := Prod.mk.inj heq
            obtain ⟨rfl, rfl⟩ := Prod.mk.inj h3
            exact absurd (by simp [hb1, hb2] : (decide (convHour hour pm ≤ 23)
              && decide (minute ≤ 59)) = true) hbounds

/-- C4 (amended): `parse_time_string` succeeds exactly when the trimmed,
lowercased input STARTS with the pattern hour[:minute] (am|pm) — trailing
characters after the am/pm suffix are accepted and ignored, because the
implementation uses an unanchored-at-the-end `re.match` — and the
converted hour is within 0-23 and the minute within 0-59; it fails with
the malformed-time `ValueError` on every other input. -/
theorem C4_time_grammar : ∀ text : String,
    (parse_time_string text).isOk = true ↔
    ∃ h m pm, TimePatternAt (toLowerList (trimList text.data)) h m pm
      ∧ convHour h pm ≤ 23 ∧ m ≤ 59 :=
  fun text => parseTimeChars_iff text.data

/-- Counterexample to C4 as stated: `"2:30 pmx"` has trailing characters
after the am/pm suffix, yet `parse_time_string` accepts it and returns
14:30 instead of failing. -/
theorem C4_counterexample : parse_time_string "2:30 pmx" = Except.ok ⟨14, 30⟩ := by decide
